import Mathlib

/-!
Shallow embedding of the intentkit skill core:

* `skills/twitter/get_mentions.py` — the `TwitterGetMentions._run` poller:
  rate-limit gate, cursor load from the skill store, external fetch,
  normalization, cursor update, uniform result envelope.
* `skills/elfa/__init__.py` — the skill registry: `get_skills` (state-based
  filtering) and `get_elfa_skill` (process-wide cached construction).

Python dicts are modelled as association lists (`pyGet`/`pySet` mirror
`d.get(k)` / `d[k] = v`, preserving insertion order and replacing in place).
Python truthiness of an optional string (`if x:` where `x` is `None` or a
`str`) is `pyTruthy`: true exactly when the value is a non-empty string.
External collaborators (the tweepy client, `check_rate_limit`,
`process_tweets_response`) are oracles carried in the environment; fallible
ones return `Except String` so that a raised exception is an `.error`.
-/

/-- `d.get(k)`: first binding of `k` in the association list, if any. -/
def pyGet {κ α : Type} [DecidableEq κ] : List (κ × α) → κ → Option α
  | [], _ => none
  | (k, v) :: rest, q => if k = q then some v else pyGet rest q

/-- `d[k] = v`: replace the binding of `k` in place, or append it at the end
(Python dicts keep insertion order and overwrite in place). -/
def pySet {κ α : Type} [DecidableEq κ] : List (κ × α) → κ → α → List (κ × α)
  | [], q, w => [(q, w)]
  | (k, v) :: rest, q, w =>
    if k = q then (q, w) :: rest else (k, v) :: pySet rest q w

/-- Python truthiness of a `str | None` value: `None` and `""` are falsy. -/
def pyTruthy : Option String → Bool
  | none => false
  | some s => s ≠ ""

theorem pyGet_pySet_self {κ α : Type} [DecidableEq κ] (d : List (κ × α)) (k : κ) (v : α) :
    pyGet (pySet d k v) k = some v := by
  induction d with
  | nil => simp [pyGet, pySet]
  | cons p rest ih =>
    obtain ⟨k', v'⟩ := p
    by_cases h : k' = k
    · simp [pySet, pyGet, h]
    · simp [pySet, pyGet, h, ih]

theorem pyGet_pySet_ne {κ α : Type} [DecidableEq κ] (d : List (κ × α)) (k q : κ) (v : α)
    (hne : q ≠ k) : pyGet (pySet d k v) q = pyGet d q := by
  induction d with
  | nil => simp [pyGet, pySet, Ne.symm hne]
  | cons p rest ih =>
    obtain ⟨k', v'⟩ := p
    by_cases h : k' = k
    · subst h
      simp [pySet, pyGet, Ne.symm hne]
    · simp only [pySet, if_neg h, pyGet]
      by_cases h2 : k' = q <;> simp [h2, ih]

theorem mem_pySet {κ α : Type} [DecidableEq κ] (d : List (κ × α)) (k : κ) (v : α)
    (q : κ × α) : q ∈ pySet d k v → q = (k, v) ∨ q ∈ d := by
  induction d with
  | nil => intro hq; simpa [pySet] using hq
  | cons p rest ih =>
    obtain ⟨k', v'⟩ := p
    intro hq
    by_cases h : k' = k
    · subst h
      simp only [pySet, if_pos rfl] at hq
      rcases List.mem_cons.mp hq with h1 | h2
      · exact Or.inl h1
      · exact Or.inr (List.mem_cons_of_mem _ h2)
    · simp only [pySet, if_neg h] at hq
      rcases List.mem_cons.mp hq with h1 | h2
      · exact Or.inr (h1 ▸ List.mem_cons_self _ _)
      · rcases ih h2 with h3 | h4
        · exact Or.inl h3
        · exact Or.inr (List.mem_cons_of_mem _ h4)

theorem pyGet_mem {κ α : Type} [DecidableEq κ] (d : List (κ × α)) (q : κ) (v : α)
    (h : pyGet d q = some v) : (q, v) ∈ d := by
  induction d with
  | nil => simp [pyGet] at h
  | cons p rest ih =>
    obtain ⟨k', v'⟩ := p
    by_cases hk : k' = q
    · subst hk
      simp [pyGet] at h
      subst h
      exact List.mem_cons_self _ _
    · simp [pyGet, hk] at h
      exact List.mem_cons_of_mem _ (ih h)

/-! ## Mention poller (`skills/twitter/get_mentions.py`) -/

namespace TwitterGetMentions

/-- A normalized tweet, as produced by `process_tweets_response`.  Its
content is opaque to `_run`: items only pass through into the output. -/
structure Tweet where
  tid : String
deriving DecidableEq, Repr

/-- A stored mapping value (`dict[str, str]`), e.g. `{"since_id": "100"}`. -/
abbrev Dict := List (String × String)

/-- The skill store, keyed by `(agent_id, skill_name, key)` as in
`store.get_agent_skill_data(self.agent_id, self.name, "last")`. -/
abbrev StoreKey := String × String × String

abbrev StoreState := List (StoreKey × Dict)

/-- The argument record of the `client.get_users_mentions(...)` call. -/
structure FetchReq where
  user_auth : Bool
  id : String
  max_results : Nat
  since_id : Option String
  start_time : Int
  expansions : List String
  tweet_fields : List String
  user_fields : List String
  media_fields : List String
deriving DecidableEq, Repr

/-- The `meta` object of a mentions response. -/
structure MentionsMeta where
  newest_id : Option String
deriving DecidableEq, Repr

/-- A raw mentions response: `{data: [...], meta?: {newest_id?: ...}}`. -/
structure MentionsResponse where
  data : List Tweet
  meta : Option MentionsMeta
deriving DecidableEq, Repr

/-- `mentions.get("meta") and mentions["meta"].get("newest_id")`:
the newest-id marker of a response, when the `meta` object carries one. -/
def respNewest (r : MentionsResponse) : Option String :=
  r.meta.bind (fun m => m.newest_id)

/-- `TwitterGetMentionsOutput`: the result envelope `{mentions, error}`. -/
structure Output where
  mentions : List Tweet
  error : Option String := none
deriving DecidableEq, Repr

/-- The environment of one `_run` invocation: the credential mode, the
external collaborators (rate limiter, tweepy client, normalizer) and the
clock.  Fallible collaborators return `Except String`; an `.error e`
models a raised exception whose `str` is `e`. -/
structure Env where
  use_key : Bool
  check_rate_limit : Nat → Bool × Option String
  client : Option Unit
  user_id : Option String
  now : Int
  get_users_mentions : FetchReq → Except String MentionsResponse
  process_tweets_response : MentionsResponse → Except String (List Tweet)
  agent_id : String

/-- The store key `(self.agent_id, self.name, "last")` with
`self.name = "twitter_get_mentions"`. -/
def storeKey (env : Env) : StoreKey := (env.agent_id, "twitter_get_mentions", "last")

/-- Result of the body of the `try:` block, together with the store state
and the observable calls (fetches made, rate-limit checks made).  An
`.error e` in `res` is an exception reaching the outer `except`. -/
structure BodyOut where
  res : Except String Output
  store : StoreState
  fetches : List FetchReq
  rateChecks : List Nat

/-- The `client.get_users_mentions(...)` argument record built by `_run`. -/
def mkFetchReq (env : Env) (uid : String) (since_id : Option String)
    (max_results : Nat) (start_time : Int) : FetchReq :=
  { user_auth := env.use_key
    id := uid
    max_results := max_results
    since_id := since_id
    start_time := start_time
    expansions := ["referenced_tweets.id", "attachments.media_keys", "author_id"]
    tweet_fields := ["created_at", "author_id", "text", "referenced_tweets", "attachments"]
    user_fields := ["username", "name", "description", "public_metrics", "location", "connection_status"]
    media_fields := ["url"] }

/-- The tail of `_run` from the `client.get_users_mentions` call on: fetch,
normalize (`process_tweets_response`, whose failure is logged and re-raised),
conditional cursor update, and the success envelope. -/
def afterFetch (env : Env) (store0 : StoreState) (last : Dict) (req : FetchReq)
    (rchecks : List Nat) : BodyOut :=
  match env.get_users_mentions req with
  | .error e => { res := .error e, store := store0, fetches := [req], rateChecks := rchecks }
  | .ok mentions =>
    match env.process_tweets_response mentions with
    | .error e => { res := .error e, store := store0, fetches := [req], rateChecks := rchecks }
    | .ok result =>
      match respNewest mentions with
      | some s =>
        if s = "" then
          { res := .ok { mentions := result }, store := store0,
            fetches := [req], rateChecks := rchecks }
        else
          { res := .ok { mentions := result },
            store := pySet store0 (storeKey env) (pySet last "since_id" s),
            fetches := [req], rateChecks := rchecks }
      | none =>
        { res := .ok { mentions := result }, store := store0,
          fetches := [req], rateChecks := rchecks }

/-- Steps of `_run` after the rate-limit gate: load `last` from the store
(defaulting to `{}`), pick `max_results` by cursor truthiness, compute
`start_time = now - 1 day`, resolve the client and the user id, then fetch. -/
def afterRate (env : Env) (store0 : StoreState) (rchecks : List Nat) : BodyOut :=
  let last := (pyGet store0 (storeKey env)).getD []
  let since_id := pyGet last "since_id"
  let max_results := if pyTruthy since_id then 100 else 10
  let start_time := env.now - 86400
  match env.client with
  | none =>
    { res := .ok { mentions := []
                   error := some "Failed to get Twitter client. Please check your authentication." },
      store := store0, fetches := [], rateChecks := rchecks }
  | some _ =>
    match env.user_id with
    | none =>
      { res := .ok { mentions := [], error := some "Failed to get Twitter user ID." },
        store := store0, fetches := [], rateChecks := rchecks }
    | some uid =>
      if uid = "" then
        { res := .ok { mentions := [], error := some "Failed to get Twitter user ID." },
          store := store0, fetches := [], rateChecks := rchecks }
      else
        afterFetch env store0 last (mkFetchReq env uid since_id max_results start_time) rchecks

/-- The body of the `try:` block of `_run`: rate-limit gate (skipped when
`use_key` is set), then the rest of the poll. -/
def runBody (env : Env) (store0 : StoreState) : BodyOut :=
  if env.use_key then afterRate env store0 []
  else
    let rl := env.check_rate_limit 1
    if rl.1 then
      { res := .ok { mentions := [], error := rl.2 },
        store := store0, fetches := [], rateChecks := [1] }
    else afterRate env store0 [1]

/-- The observable outcome of one `_run` invocation. -/
structure RunResult where
  output : Output
  store : StoreState
  fetches : List FetchReq
  rateChecks : List Nat

/-- `TwitterGetMentions._run`: the body wrapped by the outer
`except Exception as e: return TwitterGetMentionsOutput(mentions=[], error=str(e))`. -/
def run (env : Env) (store0 : StoreState) : RunResult :=
  let b := runBody env store0
  match b.res with
  | .ok out =>
    { output := out, store := b.store, fetches := b.fetches, rateChecks := b.rateChecks }
  | .error e =>
    { output := { mentions := [], error := some e },
      store := b.store, fetches := b.fetches, rateChecks := b.rateChecks }

end TwitterGetMentions

/-! ## Elfa skill registry (`skills/elfa/__init__.py`) -/

namespace Elfa

/-- The five concrete Elfa skill classes constructed by `get_elfa_skill`. -/
inductive SkillKind where
  | getMentions
  | getTopMentions
  | searchMentions
  | getTrendingTokens
  | getSmartStats
deriving DecidableEq, Repr

/-- An `ElfaBaseTool` instance: which class it is, and the `skill_store`
it was constructed with.  `Store` is the (opaque) type of store
references; handle identity is structural equality of this record. -/
structure ElfaBaseTool (Store : Type) where
  kind : SkillKind
  skill_store : Store
deriving DecidableEq, Repr

/-- The module-level `_cache: dict[str, ElfaBaseTool]`. -/
abbrev Cache (Store : Type) := List (String × ElfaBaseTool Store)

/-- The registry key under which each skill class is cached, i.e. the
known skill identifiers of the `if/elif` dispatch. -/
def kindName : SkillKind → String
  | .getMentions => "get_mentions"
  | .getTopMentions => "get_top_mentions"
  | .searchMentions => "search_mentions"
  | .getTrendingTokens => "get_trending_tokens"
  | .getSmartStats => "get_smart_stats"

/-- The known skill identifiers, in dispatch order. -/
def knownNames : List String :=
  ["get_mentions", "get_top_mentions", "search_mentions",
   "get_trending_tokens", "get_smart_stats"]

/-- One `if name not in _cache: _cache[name] = C(skill_store=store)`
branch followed by `return _cache[name]`: return the cached handle if
present, otherwise construct, insert and return the new handle. -/
def branch {Store : Type} (kind : SkillKind) (name : String) (store : Store)
    (cache : Cache Store) : ElfaBaseTool Store × Cache Store :=
  match pyGet cache name with
  | some h => (h, cache)
  | none =>
    let h : ElfaBaseTool Store := { kind := kind, skill_store := store }
    (h, pySet cache name h)

/-- `get_elfa_skill(name, store)`: dispatch on the name, serve from the
process-wide cache or construct; raise `ValueError` on an unknown name. -/
def get_elfa_skill {Store : Type} (name : String) (store : Store)
    (cache : Cache Store) : Except String (ElfaBaseTool Store × Cache Store) :=
  if name = "get_mentions" then
    .ok (branch .getMentions name store cache)
  else if name = "get_top_mentions" then
    .ok (branch .getTopMentions name store cache)
  else if name = "search_mentions" then
    .ok (branch .searchMentions name store cache)
  else if name = "get_trending_tokens" then
    .ok (branch .getTrendingTokens name store cache)
  else if name = "get_smart_stats" then
    .ok (branch .getSmartStats name store cache)
  else
    .error ("Unknown Elfa skill: " ++ name)

/-- The filtering loop of `get_skills`: walk `config["states"].items()`
in order, skip `disabled`, keep `public` always and `private` when
`is_private` holds; anything else falls through and is skipped. -/
def availableSkills : List (String × String) → Bool → List String
  | [], _ => []
  | (skill_name, state) :: rest, is_private =>
    if state = "disabled" then
      availableSkills rest is_private
    else if state = "public" ∨ (state = "private" ∧ is_private = true) then
      skill_name :: availableSkills rest is_private
    else
      availableSkills rest is_private

/-- `[get_elfa_skill(name, store) for name in available_skills]`: calls
run left to right against the shared cache; the first raised
`ValueError` propagates. -/
def getSkillsGo {Store : Type} (names : List String) (store : Store)
    (cache : Cache Store) : Except String (List (ElfaBaseTool Store) × Cache Store) :=
  match names with
  | [] => .ok ([], cache)
  | n :: rest =>
    match get_elfa_skill n store cache with
    | .error e => .error e
    | .ok (h, c1) =>
      match getSkillsGo rest store c1 with
      | .error e => .error e
      | .ok (hs, c2) => .ok (h :: hs, c2)

/-- `get_skills(config, is_private, store)`: filter the configured states,
then resolve each selected name through the cached getter. -/
def get_skills {Store : Type} (states : List (String × String)) (is_private : Bool)
    (store : Store) (cache : Cache Store) :
    Except String (List (ElfaBaseTool Store) × Cache Store) :=
  getSkillsGo (availableSkills states is_private) store cache

/-- Cache well-formedness: every cached handle is stored under the name
of its own skill class.  Holds for every cache reachable from the empty
one, since `get_elfa_skill` only inserts matching handles. -/
def WFCache {Store : Type} (cache : Cache Store) : Prop :=
  ∀ q ∈ cache, kindName (ElfaBaseTool.kind q.2) = q.1

end Elfa

/-! ## Poller lemmas -/

namespace TwitterGetMentions

theorem run_store (env : Env) (store0 : StoreState) :
    (run env store0).store = (runBody env store0).store := by
  rcases h : (runBody env store0).res with e | out <;> simp [run, h]

theorem run_fetches (env : Env) (store0 : StoreState) :
    (run env store0).fetches = (runBody env store0).fetches := by
  rcases h : (runBody env store0).res with e | out <;> simp [run, h]

theorem run_rateChecks (env : Env) (store0 : StoreState) :
    (run env store0).rateChecks = (runBody env store0).rateChecks := by
  rcases h : (runBody env store0).res with e | out <;> simp [run, h]

theorem afterFetch_fetches (env : Env) (store0 : StoreState) (last : Dict)
    (req : FetchReq) (rchecks : List Nat) :
    (afterFetch env store0 last req rchecks).fetches = [req] := by
  rcases h1 : env.get_users_mentions req with e | mentions
  · simp [afterFetch, h1]
  · rcases h2 : env.process_tweets_response mentions with e | result
    · simp [afterFetch, h1, h2]
    · rcases h3 : respNewest mentions with _ | s
      · simp [afterFetch, h1, h2, h3]
      · by_cases h4 : s = "" <;> simp [afterFetch, h1, h2, h3, h4]

theorem afterFetch_rateChecks (env : Env) (store0 : StoreState) (last : Dict)
    (req : FetchReq) (rchecks : List Nat) :
    (afterFetch env store0 last req rchecks).rateChecks = rchecks := by
  rcases h1 : env.get_users_mentions req with e | mentions
  · simp [afterFetch, h1]
  · rcases h2 : env.process_tweets_response mentions with e | result
    · simp [afterFetch, h1, h2]
    · rcases h3 : respNewest mentions with _ | s
      · simp [afterFetch, h1, h2, h3]
      · by_cases h4 : s = "" <;> simp [afterFetch, h1, h2, h3, h4]

theorem afterRate_rateChecks (env : Env) (store0 : StoreState) (rchecks : List Nat) :
    (afterRate env store0 rchecks).rateChecks = rchecks := by
  rcases hc : env.client with _ | c
  · simp [afterRate, hc]
  · rcases hu : env.user_id with _ | uid
    · simp [afterRate, hc, hu]
    · by_cases h : uid = "" <;> simp [afterRate, hc, hu, h, afterFetch_rateChecks]

theorem runBody_elevated (env : Env) (store0 : StoreState) (h : env.use_key = true) :
    runBody env store0 = afterRate env store0 [] := by
  simp [runBody, h]

theorem runBody_notLimited (env : Env) (store0 : StoreState)
    (h1 : env.use_key = false) (h2 : (env.check_rate_limit 1).1 = false) :
    runBody env store0 = afterRate env store0 [1] := by
  simp [runBody, h1, h2]

theorem runBody_limited (env : Env) (store0 : StoreState)
    (h1 : env.use_key = false) (h2 : (env.check_rate_limit 1).1 = true) :
    runBody env store0 =
      { res := .ok { mentions := [], error := (env.check_rate_limit 1).2 },
        store := store0, fetches := [], rateChecks := [1] } := by
  simp [runBody, h1, h2]

/-- When the client and a truthy user id are available, `afterRate`
reaches the fetch with exactly the request `_run` builds from the
stored cursor. -/
theorem afterRate_reaches_fetch (env : Env) (store0 : StoreState) (rchecks : List Nat)
    (uid : String) (hc : env.client = some ()) (hu : env.user_id = some uid)
    (hne : uid ≠ "") :
    afterRate env store0 rchecks =
      afterFetch env store0 ((pyGet store0 (storeKey env)).getD [])
        (mkFetchReq env uid (pyGet ((pyGet store0 (storeKey env)).getD []) "since_id")
          (if pyTruthy (pyGet ((pyGet store0 (storeKey env)).getD []) "since_id")
           then 100 else 10)
          (env.now - 86400)) rchecks := by
  unfold afterRate
  simp [hc, hu, hne]

/-- When the rate-limit gate lets the invocation through (elevated
credential, or limiter not tripped), the body proceeds to the post-gate
steps. -/
theorem runBody_gate (env : Env) (store0 : StoreState)
    (hrate : env.use_key = true ∨ (env.check_rate_limit 1).1 = false) :
    ∃ rc, runBody env store0 = afterRate env store0 rc := by
  rcases hk : env.use_key with _ | _
  · rcases hrate with h | h
    · exact absurd hk (by simp [h])
    · exact ⟨[1], runBody_notLimited env store0 hk h⟩
  · exact ⟨[], runBody_elevated env store0 hk⟩

/-- Every success envelope produced past the fetch has no error set. -/
theorem afterFetch_ok (env : Env) (store0 : StoreState) (last : Dict)
    (req : FetchReq) (rchecks : List Nat) (out : Output)
    (h : (afterFetch env store0 last req rchecks).res = .ok out) :
    out.error = none := by
  rcases h1 : env.get_users_mentions req with e | mentions
  · simp [afterFetch, h1] at h
  · rcases h2 : env.process_tweets_response mentions with e | result
    · simp [afterFetch, h1, h2] at h
    · rcases h3 : respNewest mentions with _ | s
      · simp [afterFetch, h1, h2, h3] at h
        simp [← h]
      · by_cases h4 : s = "" <;>
          · simp [afterFetch, h1, h2, h3, h4] at h
            simp [← h]

/-- Every success envelope produced after the rate gate either has no
error set or carries an empty item list. -/
theorem afterRate_ok (env : Env) (store0 : StoreState) (rchecks : List Nat)
    (out : Output) (h : (afterRate env store0 rchecks).res = .ok out) :
    out.error = none ∨ out.mentions = [] := by
  rcases hc : env.client with _ | c
  · simp [afterRate, hc] at h
    right
    simp [← h]
  · rcases hu : env.user_id with _ | uid
    · simp [afterRate, hc, hu] at h
      right
      simp [← h]
    · by_cases hne : uid = ""
      · simp [afterRate, hc, hu, hne] at h
        right
        simp [← h]
      · rw [afterRate_reaches_fetch env store0 rchecks uid hc hu hne] at h
        exact Or.inl (afterFetch_ok env store0 _ _ rchecks out h)

/-- Every success envelope of the try-body either has no error set or
carries an empty item list. -/
theorem runBody_ok (env : Env) (store0 : StoreState) (out : Output)
    (h : (runBody env store0).res = .ok out) :
    out.error = none ∨ out.mentions = [] := by
  rcases hk : env.use_key with _ | _
  · rcases hl : (env.check_rate_limit 1).1 with _ | _
    · rw [runBody_notLimited env store0 hk hl] at h
      exact afterRate_ok env store0 [1] out h
    · rw [runBody_limited env store0 hk hl] at h
      simp at h
      right
      simp [← h]
  · rw [runBody_elevated env store0 hk] at h
    exact afterRate_ok env store0 [] out h

/-- Past the fetch, the store is either left untouched, or — only when the
fetch and the normalization both succeeded and the response carries a
non-empty newest marker — overwritten at `since_id` with that marker. -/
theorem afterFetch_store_cases (env : Env) (store0 : StoreState) (last : Dict)
    (req : FetchReq) (rc : List Nat) :
    (afterFetch env store0 last req rc).store = store0 ∨
    (∃ resp s result, env.get_users_mentions req = .ok resp ∧
      respNewest resp = some s ∧ s ≠ "" ∧
      (afterFetch env store0 last req rc).store =
        pySet store0 (storeKey env) (pySet last "since_id" s) ∧
      (afterFetch env store0 last req rc).res = .ok { mentions := result, error := none }) := by
  rcases hf : env.get_users_mentions req with e | mentions
  · left; simp [afterFetch, hf]
  · rcases hp : env.process_tweets_response mentions with e | result
    · left; simp [afterFetch, hf, hp]
    · rcases hn : respNewest mentions with _ | s
      · left; simp [afterFetch, hf, hp, hn]
      · by_cases hs : s = ""
        · left; simp [afterFetch, hf, hp, hn, hs]
        · right
          exact ⟨mentions, s, result, rfl, hn, hs,
            by simp [afterFetch, hf, hp, hn, hs],
            by simp [afterFetch, hf, hp, hn, hs]⟩

/-- When the gate lets the invocation through, the store is either left
untouched by the whole run, or overwritten from a fully successful fetch
carrying a non-empty newest marker. -/
theorem store_cases_of_gate (env : Env) (store0 : StoreState) (rc : List Nat)
    (hrc : runBody env store0 = afterRate env store0 rc) :
    (run env store0).store = store0 ∨
    ((run env store0).output.error = none ∧
      ∃ req resp s, (run env store0).fetches = [req] ∧
        env.get_users_mentions req = .ok resp ∧
        respNewest resp = some s ∧ s ≠ "" ∧
        (run env store0).store =
          pySet store0 (storeKey env)
            (pySet ((pyGet store0 (storeKey env)).getD []) "since_id" s)) := by
  rcases hc : env.client with _ | c
  · left; rw [run_store, hrc]; simp [afterRate, hc]
  · rcases hu : env.user_id with _ | uid
    · left; rw [run_store, hrc]; simp [afterRate, hc, hu]
    · by_cases hne : uid = ""
      · left; rw [run_store, hrc]; simp [afterRate, hc, hu, hne]
      · have har := afterRate_reaches_fetch env store0 rc uid hc hu hne
        rcases afterFetch_store_cases env store0 ((pyGet store0 (storeKey env)).getD [])
            (mkFetchReq env uid (pyGet ((pyGet store0 (storeKey env)).getD []) "since_id")
              (if pyTruthy (pyGet ((pyGet store0 (storeKey env)).getD []) "since_id")
               then 100 else 10)
              (env.now - 86400)) rc with h | ⟨resp, s, result, hf, hn, hs, hst, hres⟩
        · left; rw [run_store, hrc, har]; exact h
        · right
          have hres2 : (runBody env store0).res = .ok { mentions := result, error := none } := by
            rw [hrc, har]; exact hres
          constructor
          · simp [run, hres2]
          · refine ⟨_, resp, s, ?_, hf, hn, hs, ?_⟩
            · rw [run_fetches, hrc, har, afterFetch_fetches]
            · rw [run_store, hrc, har]; exact hst

/-! ### Concrete environments used by the witnesses -/

/-- A fully healthy environment: elevated credential, client and user id
available, fetch returning an empty response with no `meta`. -/
def baseEnv : Env :=
  { use_key := true
    check_rate_limit := fun _ => (false, none)
    client := some ()
    user_id := some "u1"
    now := 1000000
    get_users_mentions := fun _ => .ok { data := [], meta := none }
    process_tweets_response := fun _ => .ok []
    agent_id := "agent1" }

/-- Environment whose normalization step raises. -/
def envC1 : Env := { baseEnv with process_tweets_response := fun _ => .error "boom" }

/-- Non-elevated environment with a tripped rate limiter. -/
def envC5 : Env :=
  { baseEnv with
      use_key := false
      check_rate_limit := fun _ => (true, some "Rate limit exceeded") }

/-- Elevated environment with a (never consulted) tripped rate limiter. -/
def envC5e : Env :=
  { baseEnv with check_rate_limit := fun _ => (true, some "Rate limit exceeded") }

/-- A response carrying the newest marker "150". -/
def respNew : MentionsResponse := { data := [], meta := some { newest_id := some "150" } }

/-- Environment whose fetch returns `respNew`. -/
def envNew : Env := { baseEnv with get_users_mentions := fun _ => .ok respNew }

/-- A store holding the cursor `{since_id: "100"}` for `agent1`. -/
def storeW : StoreState :=
  [(("agent1", "twitter_get_mentions", "last"), [("since_id", "100")])]

/-- A store holding the cursor `{since_id: "200"}` for `agent1`. -/
def storeC7 : StoreState :=
  [(("agent1", "twitter_get_mentions", "last"), [("since_id", "200")])]

/-! ### Poller claims -/

/-- Claim C1: no exception from `_run` is visible to the caller — any
failure raised inside the try-body after the rate-limit gate (including a
normalization failure, which is logged and re-raised internally before
being caught) is caught at the outer boundary and converted into the
envelope `{items: [], error: stringOf(exception)}`. -/
theorem C1_exception_free (env : Env) (store0 : StoreState) (e : String)
    (h : (runBody env store0).res = .error e) :
    (run env store0).output = { mentions := [], error := some e } := by
  simp [run, h]

theorem C1_exception_free_witness :
    (runBody envC1 []).res = .error "boom" ∧
    (run envC1 []).output = { mentions := [], error := some "boom" } :=
  ⟨rfl, C1_exception_free envC1 [] "boom" rfl⟩

/-- Claim C4: when the gate lets the invocation through and the client and
user id resolve, a cold start (no stored cursor) fetches with page size 10,
no `since_id` and `start_time = now - 24h`; a warm start (stored non-empty
`since_id` token) fetches with page size 100 and passes that token; the
24-hour lower bound is applied unconditionally in both cases. -/
theorem C4_fetch_parameters (env : Env) (store0 : StoreState) (uid : String)
    (hrate : env.use_key = true ∨ (env.check_rate_limit 1).1 = false)
    (hc : env.client = some ()) (hu : env.user_id = some uid) (hne : uid ≠ "") :
    (pyGet store0 (storeKey env) = none →
      ∃ req, (run env store0).fetches = [req] ∧ req.max_results = 10 ∧
        req.since_id = none ∧ req.start_time = env.now - 86400) ∧
    (∀ last s, pyGet store0 (storeKey env) = some last →
      pyGet last "since_id" = some s → s ≠ "" →
      ∃ req, (run env store0).fetches = [req] ∧ req.max_results = 100 ∧
        req.since_id = some s ∧ req.start_time = env.now - 86400) := by
  obtain ⟨rc, hrc⟩ := runBody_gate env store0 hrate
  constructor
  · intro hcold
    have har := afterRate_reaches_fetch env store0 rc uid hc hu hne
    rw [hcold] at har
    simp only [Option.getD_none, pyGet, pyTruthy, Bool.false_eq_true, if_false] at har
    refine ⟨mkFetchReq env uid none 10 (env.now - 86400), ?_, rfl, rfl, rfl⟩
    rw [run_fetches, hrc, har, afterFetch_fetches]
  · intro last s hwarm hsid hs
    have har := afterRate_reaches_fetch env store0 rc uid hc hu hne
    rw [hwarm] at har
    simp only [Option.getD_some, hsid] at har
    have ht : (if pyTruthy (some s) then 100 else 10) = 100 := by
      simp [pyTruthy, hs]
    rw [ht] at har
    refine ⟨mkFetchReq env uid (some s) 100 (env.now - 86400), ?_, rfl, rfl, rfl⟩
    rw [run_fetches, hrc, har, afterFetch_fetches]

theorem C4_fetch_parameters_witness :
    (∃ req, (run baseEnv []).fetches = [req] ∧ req.max_results = 10 ∧
      req.since_id = none ∧ req.start_time = baseEnv.now - 86400) ∧
    (∃ req, (run baseEnv storeW).fetches = [req] ∧ req.max_results = 100 ∧
      req.since_id = some "100" ∧ req.start_time = baseEnv.now - 86400) :=
  ⟨(C4_fetch_parameters baseEnv [] "u1" (Or.inl rfl) rfl rfl (by decide)).1 rfl,
   (C4_fetch_parameters baseEnv storeW "u1" (Or.inl rfl) rfl rfl (by decide)).2
     [("since_id", "100")] "100" rfl rfl (by decide)⟩

/-- Claim C5: with a non-elevated credential and the limiter (consulted
with `maxRequests = 1`) reporting limited, the run returns
`{items: [], error: limiterMessage}` immediately — no fetch is made and
the store is untouched; with an elevated credential the limiter is not
consulted at all. -/
theorem C5_rate_limit_gate (env : Env) (store0 : StoreState) :
    (env.use_key = false → (env.check_rate_limit 1).1 = true →
      run env store0 =
        { output := { mentions := [], error := (env.check_rate_limit 1).2 },
          store := store0, fetches := [], rateChecks := [1] }) ∧
    (env.use_key = true → (run env store0).rateChecks = []) := by
  constructor
  · intro h1 h2
    simp [run, runBody_limited env store0 h1 h2]
  · intro h
    rw [run_rateChecks, runBody_elevated env store0 h, afterRate_rateChecks]

theorem C5_rate_limit_gate_witness :
    envC5.use_key = false ∧ (envC5.check_rate_limit 1).1 = true ∧
    run envC5 storeW =
      { output := { mentions := [], error := some "Rate limit exceeded" },
        store := storeW, fetches := [], rateChecks := [1] } ∧
    envC5e.use_key = true ∧ (run envC5e []).rateChecks = [] :=
  ⟨rfl, rfl, (C5_rate_limit_gate envC5 storeW).1 rfl rfl, rfl,
    (C5_rate_limit_gate envC5e []).2 rfl⟩

/-- Claim C6: after a successful fetch and normalization, a response
carrying a non-empty `meta.newest_id` marker has that marker persisted as
the new `since_id` value unconditionally (overwriting the stored value);
a response carrying no such marker leaves the store unchanged. -/
theorem C6_cursor_update (env : Env) (store0 : StoreState) (uid : String)
    (resp : MentionsResponse) (items : List Tweet)
    (hrate : env.use_key = true ∨ (env.check_rate_limit 1).1 = false)
    (hc : env.client = some ()) (hu : env.user_id = some uid) (hne : uid ≠ "")
    (hfetch : ∀ req, env.get_users_mentions req = .ok resp)
    (hproc : ∀ r, env.process_tweets_response r = .ok items) :
    (∀ s, respNewest resp = some s → s ≠ "" →
      (run env store0).store =
        pySet store0 (storeKey env)
          (pySet ((pyGet store0 (storeKey env)).getD []) "since_id" s)) ∧
    (pyTruthy (respNewest resp) = false → (run env store0).store = store0) := by
  obtain ⟨rc, hrc⟩ := runBody_gate env store0 hrate
  have har := afterRate_reaches_fetch env store0 rc uid hc hu hne
  constructor
  · intro s hn hs
    rw [run_store, hrc, har]
    simp [afterFetch, hfetch, hproc, hn, hs]
  · intro hfalse
    rw [run_store, hrc, har]
    rcases hn : respNewest resp with _ | s
    · simp [afterFetch, hfetch, hproc, hn]
    · rw [hn] at hfalse
      have hs : s = "" := by simpa [pyTruthy] using hfalse
      simp [afterFetch, hfetch, hproc, hn, hs]

theorem C6_cursor_update_witness :
    (run envNew storeW).store =
      [(("agent1", "twitter_get_mentions", "last"), [("since_id", "150")])] ∧
    (run baseEnv storeW).store = storeW := by
  constructor
  · rw [(C6_cursor_update envNew storeW "u1" respNew [] (Or.inl rfl) rfl rfl
        (by decide) (fun _ => rfl) (fun _ => rfl)).1 "150" rfl (by decide)]
    decide
  · exact (C6_cursor_update baseEnv storeW "u1" { data := [], meta := none } []
      (Or.inl rfl) rfl rfl (by decide) (fun _ => rfl) (fun _ => rfl)).2 rfl

/-- Claim C7 (amended): the stored cursor mapping is mutated only after a
fully successful fetch and normalization, and only when the response
carries a non-empty newest marker; in every other case it is left
untouched.  When it is mutated, the marker is persisted unconditionally —
without comparison against the stored value — so the cursor is not
guaranteed never to regress. -/
theorem C7_store_mutation_amended (env : Env) (store0 : StoreState) :
    (run env store0).store = store0 ∨
    ((run env store0).output.error = none ∧
      ∃ req resp s, (run env store0).fetches = [req] ∧
        env.get_users_mentions req = .ok resp ∧
        respNewest resp = some s ∧ s ≠ "" ∧
        (run env store0).store =
          pySet store0 (storeKey env)
            (pySet ((pyGet store0 (storeKey env)).getD []) "since_id" s)) := by
  rcases hk : env.use_key with _ | _
  · rcases hl : (env.check_rate_limit 1).1 with _ | _
    · exact store_cases_of_gate env store0 [1] (runBody_notLimited env store0 hk hl)
    · left
      rw [run_store, runBody_limited env store0 hk hl]
  · exact store_cases_of_gate env store0 [] (runBody_elevated env store0 hk)

/-- Claim C7 counterexample: with stored cursor "200", a successful run
whose response carries the older marker "150" overwrites the stored
cursor with "150": the store is mutated although the response marker is
not newer than the stored cursor, and the cursor regresses. -/
theorem C7_store_mutation_counterexample :
    pyGet storeC7 (storeKey envNew) = some [("since_id", "200")] ∧
    (run envNew storeC7).output.error = none ∧
    pyGet ((run envNew storeC7).store) (storeKey envNew) = some [("since_id", "150")] ∧
    (150 : Nat) < 200 :=
  ⟨by decide, by decide, by decide, by decide⟩

/-- Claim C9: in every result envelope returned by `_run`, a present
error and a non-empty item list are mutually exclusive — every failure
path carries an empty item list, and the success path carries no error. -/
theorem C9_error_items_exclusive (env : Env) (store0 : StoreState) :
    (run env store0).output.error = none ∨ (run env store0).output.mentions = [] := by
  rcases h : (runBody env store0).res with e | out
  · right; simp [run, h]
  · rcases runBody_ok env store0 out h with h1 | h2
    · left; simp [run, h, h1]
    · right; simp [run, h, h2]

end TwitterGetMentions

/-! ## Registry lemmas -/

namespace Elfa

theorem branch_hit {Store : Type} (kind : SkillKind) (name : String) (store : Store)
    (cache : Cache Store) (h : ElfaBaseTool Store) (hhit : pyGet cache name = some h) :
    branch kind name store cache = (h, cache) := by
  simp [branch, hhit]

theorem branch_miss {Store : Type} (kind : SkillKind) (name : String) (store : Store)
    (cache : Cache Store) (hmiss : pyGet cache name = none) :
    branch kind name store cache =
      ({ kind := kind, skill_store := store },
       pySet cache name { kind := kind, skill_store := store }) := by
  simp [branch, hmiss]

/-- The dispatch of `get_elfa_skill` on a known name always lands in the
branch whose skill class is registered under that name. -/
theorem get_elfa_skill_eq_branch {Store : Type} (name : String) (store : Store)
    (cache : Cache Store) (hknown : name ∈ knownNames) :
    ∃ kind, kindName kind = name ∧
      get_elfa_skill name store cache = .ok (branch kind name store cache) := by
  simp only [knownNames, List.mem_cons, List.mem_singleton] at hknown
  rcases hknown with h | h | h | h | (h | h)
  · subst h; exact ⟨.getMentions, rfl, rfl⟩
  · subst h; exact ⟨.getTopMentions, rfl, rfl⟩
  · subst h; exact ⟨.searchMentions, rfl, rfl⟩
  · subst h; exact ⟨.getTrendingTokens, rfl, rfl⟩
  · subst h; exact ⟨.getSmartStats, rfl, rfl⟩
  · simp at h

theorem kindName_inj (k1 k2 : SkillKind) : kindName k1 = kindName k2 → k1 = k2 := by
  cases k1 <;> cases k2 <;> decide

/-- A `get_elfa_skill` call on a known name succeeds, returns a handle
of that name's skill class, preserves cache well-formedness, and touches
no other cache entry. -/
theorem get_elfa_skill_known {Store : Type} (name : String) (store : Store)
    (cache : Cache Store) (hknown : name ∈ knownNames) (hWF : WFCache cache) :
    ∃ h c1, get_elfa_skill name store cache = .ok (h, c1) ∧
      kindName (ElfaBaseTool.kind h) = name ∧ WFCache c1 ∧
      ∀ n, n ≠ name → pyGet c1 n = pyGet cache n := by
  obtain ⟨kind, hkn, heq⟩ := get_elfa_skill_eq_branch name store cache hknown
  rcases hcc : pyGet cache name with _ | h0
  · rw [branch_miss kind name store cache hcc] at heq
    refine ⟨_, _, heq, hkn, ?_, ?_⟩
    · intro q hq
      rcases mem_pySet cache name _ q hq with h1 | h2
      · subst h1
        exact hkn
      · exact hWF q h2
    · intro n hn
      exact pyGet_pySet_ne cache name n _ hn
  · rw [branch_hit kind name store cache h0 hcc] at heq
    refine ⟨h0, cache, heq, ?_, hWF, fun n _ => rfl⟩
    exact hWF (name, h0) (pyGet_mem cache name h0 hcc)

/-- The list-comprehension loop over a list of known names succeeds,
returns handles whose skill names are exactly the given names in order,
preserves cache well-formedness, and touches no other cache entry. -/
theorem getSkillsGo_known {Store : Type} (names : List String) (store : Store)
    (cache : Cache Store) (hknown : ∀ n ∈ names, n ∈ knownNames) (hWF : WFCache cache) :
    ∃ hs c1, getSkillsGo names store cache = .ok (hs, c1) ∧
      hs.map (fun h => kindName (ElfaBaseTool.kind h)) = names ∧ WFCache c1 ∧
      ∀ n, n ∉ names → pyGet c1 n = pyGet cache n := by
  induction names generalizing cache with
  | nil => exact ⟨[], cache, rfl, rfl, hWF, fun n _ => rfl⟩
  | cons n rest ih =>
    obtain ⟨h, c1, heq, hname, hWF1, hpres⟩ :=
      get_elfa_skill_known n store cache (hknown n (by simp)) hWF
    obtain ⟨hs, c2, heq2, hmap, hWF2, hpres2⟩ :=
      ih c1 (fun m hm => hknown m (by simp [hm])) hWF1
    refine ⟨h :: hs, c2, ?_, ?_, hWF2, ?_⟩
    · simp only [getSkillsGo, heq, heq2]
    · simp [hname, hmap]
    · intro m hm
      simp only [List.mem_cons, not_or] at hm
      rw [hpres2 m hm.2, hpres m hm.1]

/-- Membership in the filtered name list of `get_skills`: a name is
selected exactly when some entry lists it as `public`, or as `private`
while the context is private. -/
theorem mem_availableSkills (states : List (String × String)) (p : Bool) (name : String) :
    name ∈ availableSkills states p ↔
      ∃ st, (name, st) ∈ states ∧ (st = "public" ∨ (st = "private" ∧ p = true)) := by
  induction states with
  | nil => simp [availableSkills]
  | cons q rest ih =>
    obtain ⟨n, st⟩ := q
    simp only [availableSkills]
    split_ifs with h1 h2
    · subst h1
      rw [ih]
      constructor
      · rintro ⟨st', hm, hP⟩
        exact ⟨st', List.mem_cons_of_mem _ hm, hP⟩
      · rintro ⟨st', hm, hP⟩
        rcases List.mem_cons.mp hm with heq | hm2
        · injection heq with h3 h4
          subst h4
          simp at hP
        · exact ⟨st', hm2, hP⟩
    · simp only [List.mem_cons, ih]
      constructor
      · rintro (rfl | ⟨st', hm, hP⟩)
        · exact ⟨st, Or.inl rfl, h2⟩
        · exact ⟨st', Or.inr hm, hP⟩
      · rintro ⟨st', heq | hm2, hP⟩
        · injection heq with h3 h4
          exact Or.inl h3
        · exact Or.inr ⟨st', hm2, hP⟩
    · rw [ih]
      constructor
      · rintro ⟨st', hm, hP⟩
        exact ⟨st', List.mem_cons_of_mem _ hm, hP⟩
      · rintro ⟨st', hm, hP⟩
        rcases List.mem_cons.mp hm with heq | hm2
        · exfalso
          injection heq with h3 h4
          subst h4
          exact h2 hP
        · exact ⟨st', hm2, hP⟩

/-! ### Registry claims -/

/-- Claim C2: for every configuration (over known skill names) and every
privacy flag, `get_skills` succeeds and its output contains a skill name
iff that name is configured `public` (any flag) or `private` with the
flag set; in particular `disabled` names never appear. -/
theorem C2_state_filtering {Store : Type} (states : List (String × String)) (p : Bool)
    (store : Store) (cache : Cache Store)
    (hkeys : ∀ q ∈ states, q.1 ∈ knownNames) (hWF : WFCache cache) :
    ∃ hs c1, get_skills states p store cache = .ok (hs, c1) ∧
      ∀ name, (∃ h ∈ hs, kindName (ElfaBaseTool.kind h) = name) ↔
        (∃ st, (name, st) ∈ states ∧ (st = "public" ∨ (st = "private" ∧ p = true))) := by
  have hnames : ∀ n ∈ availableSkills states p, n ∈ knownNames := by
    intro n hn
    obtain ⟨st, hmem, -⟩ := (mem_availableSkills states p n).mp hn
    exact hkeys (n, st) hmem
  obtain ⟨hs, c1, heq, hmap, -, -⟩ :=
    getSkillsGo_known (availableSkills states p) store cache hnames hWF
  refine ⟨hs, c1, heq, ?_⟩
  intro name
  rw [← mem_availableSkills states p name, ← hmap]
  simp [List.mem_map]

/-- The configuration used by the C2 witness. -/
def statesW : List (String × String) :=
  [("get_mentions", "private"), ("get_top_mentions", "disabled"), ("search_mentions", "public")]

theorem C2_state_filtering_witness :
    ∃ hs c1, get_skills statesW true (5 : Nat) [] = .ok (hs, c1) ∧
      ∀ name, (∃ h ∈ hs, kindName (ElfaBaseTool.kind h) = name) ↔
        (∃ st, (name, st) ∈ statesW ∧ (st = "public" ∨ (st = "private" ∧ true = true))) :=
  C2_state_filtering statesW true 5 [] (by decide)
    (fun q hq => absurd hq (List.not_mem_nil q))

/-- Claim C3: for a known skill name not yet cached, `get_elfa_skill`
with `storeA` constructs a handle bound to `storeA`; a second call with
any `storeB` returns the identical handle and leaves the cache
unchanged — the store binding is fixed at first construction. -/
theorem C3_cached_handle_binding {Store : Type} (name : String) (A B : Store)
    (cache : Cache Store) (hknown : name ∈ knownNames)
    (hmiss : pyGet cache name = none) :
    ∃ h cache1, get_elfa_skill name A cache = .ok (h, cache1) ∧
      ElfaBaseTool.skill_store h = A ∧
      get_elfa_skill name B cache1 = .ok (h, cache1) := by
  obtain ⟨kind, hkn, heqA⟩ := get_elfa_skill_eq_branch name A cache hknown
  rw [branch_miss kind name A cache hmiss] at heqA
  obtain ⟨kind2, hkn2, heqB⟩ :=
    get_elfa_skill_eq_branch name B
      (pySet cache name { kind := kind, skill_store := A }) hknown
  have hk2 : kind2 = kind := kindName_inj kind2 kind (by rw [hkn, hkn2])
  subst hk2
  rw [branch_hit kind2 name B _ _ (pyGet_pySet_self cache name _)] at heqB
  exact ⟨{ kind := kind2, skill_store := A },
    pySet cache name { kind := kind2, skill_store := A }, heqA, rfl, heqB⟩

theorem C3_cached_handle_binding_witness :
    ∃ h cache1, get_elfa_skill "get_mentions" (1 : Nat) [] = .ok (h, cache1) ∧
      ElfaBaseTool.skill_store h = 1 ∧
      get_elfa_skill "get_mentions" (2 : Nat) cache1 = .ok (h, cache1) :=
  C3_cached_handle_binding "get_mentions" 1 2 [] (by decide) rfl

/-- Claim C8: `get_elfa_skill` on a name outside the known skill
identifiers raises `ValueError("Unknown Elfa skill: ...")`, and this is
the only error the component raises — on every known name it returns a
handle. -/
theorem C8_unknown_skill {Store : Type} (name : String) (store : Store)
    (cache : Cache Store) :
    (name ∉ knownNames →
      get_elfa_skill name store cache = .error ("Unknown Elfa skill: " ++ name)) ∧
    (name ∈ knownNames → ∃ h c1, get_elfa_skill name store cache = .ok (h, c1)) := by
  constructor
  · intro hno
    simp only [knownNames, List.mem_cons, List.mem_singleton, not_or] at hno
    obtain ⟨h1, h2, h3, h4, h5⟩ := hno
    simp [get_elfa_skill, h1, h2, h3, h4, h5]
  · intro hknown
    obtain ⟨kind, -, heq⟩ := get_elfa_skill_eq_branch name store cache hknown
    exact ⟨_, _, heq⟩

theorem C8_unknown_skill_witness :
    get_elfa_skill "nonexistent" (0 : Nat) [] = .error "Unknown Elfa skill: nonexistent" ∧
    ∃ h c1, get_elfa_skill "get_mentions" (0 : Nat) [] = .ok (h, c1) :=
  ⟨(C8_unknown_skill "nonexistent" (0 : Nat) []).1 (by decide),
   (C8_unknown_skill "get_mentions" (0 : Nat) []).2 (by decide)⟩

/-- Claim C10: a skill whose configured state is none of `disabled`,
`public`, `private` (e.g. misspelled) is silently omitted from the
`get_skills` output for every privacy flag: no error is raised, no
handle for it appears, and its cache entry is untouched. -/
theorem C10_unknown_state_omitted {Store : Type} (states : List (String × String))
    (p : Bool) (store : Store) (cache : Cache Store) (name st : String)
    (hmem : (name, st) ∈ states)
    (hst : st ≠ "disabled" ∧ st ≠ "public" ∧ st ≠ "private")
    (huniq : ∀ q ∈ states, q.1 = name → q.2 = st)
    (hothers : ∀ q ∈ states, q.1 ≠ name → q.1 ∈ knownNames)
    (hWF : WFCache cache) :
    name ∉ availableSkills states p ∧
    ∃ hs c1, get_skills states p store cache = .ok (hs, c1) ∧
      (∀ h ∈ hs, kindName (ElfaBaseTool.kind h) ≠ name) ∧
      pyGet c1 name = pyGet cache name := by
  have hnot : name ∉ availableSkills states p := by
    intro hin
    obtain ⟨st', hmem', hP⟩ := (mem_availableSkills states p name).mp hin
    have hst' : st' = st := huniq (name, st') hmem' rfl
    subst hst'
    rcases hP with h | ⟨h, -⟩
    · exact hst.2.1 h
    · exact hst.2.2 h
  have hnames : ∀ n ∈ availableSkills states p, n ∈ knownNames := by
    intro n hn
    obtain ⟨st', hmem', -⟩ := (mem_availableSkills states p n).mp hn
    by_cases hn2 : n = name
    · subst hn2
      exact absurd hn hnot
    · exact hothers (n, st') hmem' hn2
  obtain ⟨hs, c1, heq, hmap, -, hpres⟩ :=
    getSkillsGo_known (availableSkills states p) store cache hnames hWF
  refine ⟨hnot, hs, c1, heq, ?_, hpres name hnot⟩
  intro h hh hkn
  have : name ∈ List.map (fun h => kindName (ElfaBaseTool.kind h)) hs :=
    List.mem_map.mpr ⟨h, hh, hkn⟩
  rw [hmap] at this
  exact hnot this

/-- The configuration used by the C10 witness: a misspelled state. -/
def statesC10 : List (String × String) :=
  [("get_mentions", "pubilc"), ("search_mentions", "public")]

theorem C10_unknown_state_omitted_witness :
    "get_mentions" ∉ availableSkills statesC10 true ∧
    ∃ hs c1, get_skills statesC10 true (5 : Nat) [] = .ok (hs, c1) ∧
      (∀ h ∈ hs, kindName (ElfaBaseTool.kind h) ≠ "get_mentions") ∧
      pyGet c1 "get_mentions" = pyGet ([] : Cache Nat) "get_mentions" :=
  C10_unknown_state_omitted statesC10 true 5 [] "get_mentions" "pubilc"
    (by decide) (by decide) (by decide) (by decide)
    (fun q hq => absurd hq (List.not_mem_nil q))

end Elfa
